import Mathlib

/-!
Shallow embedding of the Bristol crime-analysis dashboard script (`app.py`)
and verification of the specification's claims about its filter engine,
aggregation pass, overlap analysis, export and empty-data behaviour.

Numeric columns that pandas stores as IEEE floats are modelled by `PFloat`:
a finite rational, positive or negative infinity, or NaN.  This keeps the
float-specific behaviour that matters here exact: `x / 0` is `+inf` for
`x > 0`, `0 / 0` is NaN, operations propagate NaN, and `fillna` replaces
only NaN (never infinity).
-/

namespace Bristol

/-- A pandas float cell: finite rational, `+inf`, `-inf`, or NaN. -/
inductive PFloat where
  | nan : PFloat
  | inf : PFloat
  | ninf : PFloat
  | fin : ℚ → PFloat
deriving DecidableEq

/-- IEEE-style division as pandas performs it elementwise:
division by zero of a nonzero finite numerator gives a signed infinity,
`0 / 0` gives NaN, and NaN propagates. -/
def PFloat.div : PFloat → PFloat → PFloat
  | .nan, _ => .nan
  | .inf, .nan => .nan
  | .ninf, .nan => .nan
  | .fin _, .nan => .nan
  | .inf, .inf => .nan
  | .inf, .ninf => .nan
  | .ninf, .inf => .nan
  | .ninf, .ninf => .nan
  | .inf, .fin b => if 0 ≤ b then .inf else .ninf
  | .ninf, .fin b => if 0 ≤ b then .ninf else .inf
  | .fin _, .inf => .fin 0
  | .fin _, .ninf => .fin 0
  | .fin a, .fin b =>
      if b = 0 then (if a = 0 then .nan else if 0 < a then .inf else .ninf)
      else .fin (a / b)

/-- Multiplication by a positive finite constant (the script multiplies by
`1000`): infinities and NaN are preserved, finite values scale. -/
def PFloat.mulPos (x : PFloat) (c : ℚ) : PFloat :=
  match x with
  | .nan => .nan
  | .inf => .inf
  | .ninf => .ninf
  | .fin a => .fin (a * c)

/-- `Series.fillna(v)`: replaces NaN by `v` and leaves every other value
(including infinities) unchanged. -/
def PFloat.fillna (x : PFloat) (v : ℚ) : PFloat :=
  match x with
  | .nan => .fin v
  | y => y

/-- One row of `app_data_incidents.csv` after the loader restores the
`Month` column to a date.  `month` is the date as a day ordinal, so the
slider comparison is plain integer comparison; coordinates are nullable. -/
structure Incident where
  month : Int
  crimeType : String
  latitude : Option ℚ
  longitude : Option ℚ
  lsoa21cd : String
deriving DecidableEq

/-- `time_mask` applied to `incidents_df` (app.py lines 90-91):
keep rows with `start_date <= Month <= end_date`, both bounds inclusive. -/
def base_filtered_incidents (incidents : List Incident) (startDate endDate : Int) :
    List Incident :=
  incidents.filter (fun r => decide (startDate ≤ r.month) && decide (r.month ≤ endDate))

/-- `filtered_incidents` (app.py line 118): restrict the date-filtered rows
to those whose `Crime type` is in the selected list (`Series.isin`). -/
def filtered_incidents (incidents : List Incident) (startDate endDate : Int)
    (selectedCrimes : List String) : List Incident :=
  (base_filtered_incidents incidents startDate endDate).filter
    (fun r => selectedCrimes.contains r.crimeType)

/-- `Series.unique().tolist()`: distinct values in order of first occurrence. -/
def uniqueFirst : List String → List String
  | [] => []
  | x :: xs => x :: uniqueFirst (xs.filter (fun y => y != x))
termination_by l => l.length
decreasing_by
  simp only [List.length_cons]
  exact Nat.lt_succ_of_le (List.length_filter_le _ _)

/-- `all_crimes` (app.py line 97): the crime types present in the
date-filtered data. -/
def all_crimes (base : List Incident) : List String :=
  uniqueFirst (base.map (fun r => r.crimeType))

/-- `target_defaults` (app.py lines 100-107): the fixed priority list of
headline categories. -/
def target_defaults : List String :=
  ["Vehicle crime", "Criminal damage and arson", "Burglary",
   "Anti-social behaviour", "Other crime", "Violence and sexual offences"]

/-- `valid_defaults` (app.py line 110): the priority categories that occur
in the current date-filtered data. -/
def valid_defaults (base : List Incident) : List String :=
  target_defaults.filter (fun c => (all_crimes base).contains c)

/-- A cell of a nullable float column rendered by `to_csv`: empty for NaN. -/
def optCell : Option ℚ → String
  | none => ""
  | some q => toString q

/-- The header row written by `filtered_incidents.to_csv(index=False)`. -/
def csvHeader : String := "Month,Crime type,Latitude,Longitude,LSOA21CD"

/-- One CSV data line of the export: the row's cells joined by commas, in
column order. -/
def incidentLine (r : Incident) : String :=
  toString r.month ++ "," ++ r.crimeType ++ "," ++ optCell r.latitude ++ ","
    ++ optCell r.longitude ++ "," ++ r.lsoa21cd

/-- The lines of the CSV export: the header followed by one line per row,
in row order. -/
def csvLineList (rows : List Incident) : List String :=
  csvHeader :: rows.map incidentLine

/-- `DataFrame.to_csv(index=False)`: every line, each terminated by a
newline. -/
def to_csv (rows : List Incident) : String :=
  String.join ((csvLineList rows).map (fun line => line ++ "\x0A"))

/-- The fixed `file_name` passed to `st.sidebar.download_button`
(app.py line 137). -/
def download_file_name : String := "bristol_crime_filtered.csv"

/-- The `data` argument of the download button (app.py line 136): the CSV
serialization of the currently filtered incidents.  The map-metric radio
selection is in scope in the script but unused by the export; it is taken
as an argument here so that independence from it can be stated. -/
def download_data (incidents : List Incident) (startDate endDate : Int)
    (selectedCrimes : List String) (mapMetric : String) : String :=
  to_csv (filtered_incidents incidents startDate endDate selectedCrimes)

/-- One row of `app_data_master.csv`.  The three derived columns are
`Option`-valued because they are absent before the first aggregation pass
and dropped at the start of every pass; `POP2022Total` is a float column
and may be NaN. -/
structure MasterRow where
  lsoa21cd : String
  lsoa21ln : String
  lsoa21nm : String
  imdScore : ℚ
  income : ℚ
  employment : ℚ
  educationScore : ℚ
  pop2022Total : PFloat
  periodTotalCrimes : Option PFloat := none
  totalCrimes : Option PFloat := none
  crimeRate : Option PFloat := none
deriving DecidableEq

/-- The count, in `filtered_incidents['LSOA21CD'].value_counts()`, for one
area code: the number of filtered incidents carrying that code. -/
def countFor (filtered : List Incident) (code : String) : Nat :=
  (filtered.filter (fun r => r.lsoa21cd == code)).length

/-- The `Period_Total_Crimes` cell of one master row immediately after the
left merge (app.py line 154): the count when the code occurs in the count
table, NaN otherwise.  `value_counts` produces one row per distinct code,
so the right side of the merge has unique keys and the left merge assigns
exactly one cell to each left row, preserving left row order. -/
def mergedPeriodTotal (filtered : List Incident) (code : String) : PFloat :=
  if filtered.any (fun r => r.lsoa21cd == code) then .fin (countFor filtered code)
  else .nan

/-- The aggregation pass (app.py lines 146-160) restricted to one master
row: drop the stale derived columns, left-merge the fresh count, fill the
missing count with 0, alias `Total_Crimes`, and derive
`Crime_Rate = Total_Crimes / POP2022Total * 1000` followed by `fillna(0)`. -/
def enrichRow (filtered : List Incident) (row : MasterRow) : MasterRow :=
  let dropped : MasterRow :=
    { row with periodTotalCrimes := none, totalCrimes := none, crimeRate := none }
  let ptc : PFloat := (mergedPeriodTotal filtered dropped.lsoa21cd).fillna 0
  let tc : PFloat := ptc
  let cr : PFloat := ((tc.div dropped.pop2022Total).mulPos 1000).fillna 0
  { dropped with
      periodTotalCrimes := some ptc
      totalCrimes := some tc
      crimeRate := some cr }

/-- The whole aggregation pass (app.py lines 146-160): since the count
table has unique keys, the left merge keeps the master rows in order,
one output row per input row. -/
def recompute_area_stats (master : List MasterRow) (filtered : List Incident) :
    List MasterRow :=
  master.map (enrichRow filtered)

/-- `heat_data` (app.py line 264): the coordinate pairs of the filtered
incidents after `dropna()` over the two coordinate columns. -/
def heat_data (rows : List Incident) : List (ℚ × ℚ) :=
  rows.filterMap (fun r =>
    match r.latitude, r.longitude with
    | some a, some b => some (a, b)
    | _, _ => none)

/-- The `Crime_Rate` cell of a row, viewed as a float (the column is always
present at the point of use in the script; an absent column reads as NaN). -/
def crimeRateVal (row : MasterRow) : PFloat :=
  match row.crimeRate with
  | some v => v
  | none => .nan

/-- `a` may be placed no later than `b` when a float column is sorted
descending with NaN placed last (`sort_values(ascending=False)` with the
default `na_position='last'`). -/
def descBefore : PFloat → PFloat → Bool
  | _, .nan => true
  | .nan, _ => false
  | .inf, _ => true
  | _, .inf => false
  | _, .ninf => true
  | .ninf, _ => false
  | .fin a, .fin b => decide (b ≤ a)

/-- The contract of `DataFrame.sort_values(by=key, ascending=False)`
(app.py lines 367 and 372): pandas guarantees that the result is a
permutation of the rows ordered descending by the key column with NaN
placed last, but the default `kind='quicksort'` is not stable, so the
relative order of rows with tied keys is implementation-defined.  The
sort is therefore modelled as this relation on admissible outcomes, not
as a function that picks one tie order. -/
def SortedDescBy (key : MasterRow → PFloat) (t out : List MasterRow) : Prop :=
  out.Perm t ∧ out.Pairwise (fun a b => descBefore (key a) (key b) = true)

/-- `set(... .head(10)['LSOA21LN'])` (app.py lines 367/372 and 376/377):
the local names of the first ten rows of a sort outcome. -/
def top10Names (out : List MasterRow) : Finset String :=
  ((out.take 10).map (fun r => r.lsoa21ln)).toFinset

/-- `common_areas` (app.py line 378) as a function of the two sort
outcomes: the intersection of the two top-ten name sets. -/
def common_areas_of (outDeprived outCrime : List MasterRow) : Finset String :=
  top10Names outDeprived ∩ top10Names outCrime

/-- A minimal master row for the tie analysis: all name fields set to
`name`, `IMDScore` set to `imd`, no derived columns. -/
def tieRow (name : String) (imd : ℚ) : MasterRow :=
  { lsoa21cd := name, lsoa21ln := name, lsoa21nm := name, imdScore := imd,
    income := 0, employment := 0, educationScore := 0,
    pop2022Total := .fin 100 }

/-- Eleven areas whose `IMDScore` ties exactly at the top-ten cutoff
(ranks 10 and 11 share the score 20), listed in descending score order. -/
def tTie : List MasterRow :=
  [tieRow "A01" 110, tieRow "A02" 100, tieRow "A03" 90, tieRow "A04" 80,
   tieRow "A05" 70, tieRow "A06" 60, tieRow "A07" 50, tieRow "A08" 40,
   tieRow "A09" 30, tieRow "A10" 20, tieRow "A11" 20]

/-- The same eleven areas with the two tied rows exchanged: still ordered
descending by score, but a different area occupies rank 10. -/
def tSwap : List MasterRow :=
  [tieRow "A01" 110, tieRow "A02" 100, tieRow "A03" 90, tieRow "A04" 80,
   tieRow "A05" 70, tieRow "A06" 60, tieRow "A07" 50, tieRow "A08" 40,
   tieRow "A09" 30, tieRow "A11" 20, tieRow "A10" 20]

/-- `Period_Total_Crimes` of a row read back as a rational (0 for a
missing or non-finite cell, which after the pass never occurs). -/
def periodTotalOf (row : MasterRow) : ℚ :=
  match row.periodTotalCrimes with
  | some (.fin q) => q
  | _ => 0

/-- The sum of the `Period_Total_Crimes` column. -/
def sumPeriodTotals (rows : List MasterRow) : ℚ :=
  (rows.map periodTotalOf).sum

/-- The number of filtered incidents whose area code occurs in the master
table. -/
def matchedCount (master : List MasterRow) (filtered : List Incident) : Nat :=
  (filtered.filter (fun i => master.any (fun row => row.lsoa21cd == i.lsoa21cd))).length

/-- A concrete master row with population 2000 (the spec's rate example). -/
def mPop2000 : MasterRow :=
  { lsoa21cd := "E01014485", lsoa21ln := "Central Alpha", lsoa21nm := "Bristol 001A",
    imdScore := 40, income := 1/5, employment := 1/10, educationScore := 20,
    pop2022Total := .fin 2000 }

/-- A concrete incident located in `mPop2000`'s area. -/
def i2000 : Incident :=
  { month := 19000, crimeType := "Burglary", latitude := some (514/10),
    longitude := some (-26/10), lsoa21cd := "E01014485" }

/-- A concrete master row with population 0. -/
def mZeroPop : MasterRow :=
  { lsoa21cd := "E01014999", lsoa21ln := "Docklands Beta", lsoa21nm := "Bristol 099Z",
    imdScore := 10, income := 1/10, employment := 1/20, educationScore := 5,
    pop2022Total := .fin 0 }

/-- A concrete incident in `mZeroPop`'s area, with null coordinates. -/
def iZero : Incident :=
  { month := 19000, crimeType := "Burglary", latitude := none,
    longitude := none, lsoa21cd := "E01014999" }

/-- C1: the normal case behaves as specified — an area with population
2000 and 10 matching incidents gets `Crime_Rate = 5` — but the
zero-population case does not: with population 0 and one matching
incident, `Total_Crimes / POP2022Total` is `+inf` and the subsequent
`fillna(0)` replaces only NaN, so the produced rate is `+inf`, not the 0
the specification requires. -/
theorem crime_rate_zero_population_bug :
    ((recompute_area_stats [mPop2000] (List.replicate 10 i2000)).map
        (fun r => r.crimeRate) = [some (.fin 5)]) ∧
    ((recompute_area_stats [mZeroPop] [iZero]).map
        (fun r => r.crimeRate) = [some PFloat.inf]) := by
  constructor
  · norm_num [recompute_area_stats, enrichRow, mergedPeriodTotal, countFor, PFloat.div,
      PFloat.mulPos, PFloat.fillna, mPop2000, i2000, List.replicate]
  · decide

/-- C2: the filter engine keeps a record iff its month lies in the
inclusive date range and its crime type is selected; the result is a
sublist of the (unmutated) input, and an empty selection yields zero
records. -/
theorem filter_engine_correct (incidents : List Incident) (s e : Int)
    (sel : List String) :
    (∀ r, r ∈ filtered_incidents incidents s e sel ↔
        (r ∈ incidents ∧ s ≤ r.month ∧ r.month ≤ e ∧ r.crimeType ∈ sel)) ∧
    (filtered_incidents incidents s e sel).Sublist incidents ∧
    filtered_incidents incidents s e [] = [] := by
  refine ⟨fun r => ?_, ?_, ?_⟩
  · simp only [filtered_incidents, base_filtered_incidents, List.mem_filter,
      Bool.and_eq_true, decide_eq_true_eq, List.contains, List.elem_eq_mem]
    tauto
  · exact (List.filter_sublist _).trans (List.filter_sublist _)
  · simp [filtered_incidents]

/-- Membership in `uniqueFirst` agrees with membership in the input. -/
theorem mem_uniqueFirst (c : String) (l : List String) :
    c ∈ uniqueFirst l ↔ c ∈ l := by
  induction l using uniqueFirst.induct with
  | case1 => simp [uniqueFirst]
  | case2 x xs ih =>
    rw [uniqueFirst]
    by_cases hcx : c = x
    · simp [hcx]
    · simp only [List.mem_cons, hcx, false_or]
      rw [ih]
      simp [List.mem_filter, hcx]

/-- C8: a category is in the returned default selection iff it is in the
fixed priority list and some record of the date-filtered data carries it;
in particular a priority category absent from the current time window
never appears pre-selected. -/
theorem default_selection_valid (incidents : List Incident) (s e : Int)
    (c : String) :
    c ∈ valid_defaults (base_filtered_incidents incidents s e) ↔
      (c ∈ target_defaults ∧
        ∃ r ∈ base_filtered_incidents incidents s e, r.crimeType = c) := by
  simp only [valid_defaults, all_crimes, List.mem_filter, List.contains,
    List.elem_eq_mem, mem_uniqueFirst, List.mem_map, decide_eq_true_eq]

/-- C9: the download payload is the CSV serialization of exactly the
currently filtered incident set — the header line followed by one line per
filtered record, in order — it does not depend on the map-metric
selection, and the filename is fixed. -/
theorem export_fidelity (incidents : List Incident) (s e : Int)
    (sel : List String) (metric1 metric2 : String) :
    download_data incidents s e sel metric1 =
      to_csv (filtered_incidents incidents s e sel) ∧
    download_data incidents s e sel metric1 =
      download_data incidents s e sel metric2 ∧
    csvLineList (filtered_incidents incidents s e sel) =
      csvHeader :: (filtered_incidents incidents s e sel).map incidentLine ∧
    (csvLineList (filtered_incidents incidents s e sel)).length =
      (filtered_incidents incidents s e sel).length + 1 ∧
    download_file_name = "bristol_crime_filtered.csv" := by
  refine ⟨rfl, rfl, rfl, ?_, rfl⟩
  simp [csvLineList]

/-- The aggregation leaves the key column of every row unchanged. -/
theorem enrichRow_lsoa (f : List Incident) (row : MasterRow) :
    (enrichRow f row).lsoa21cd = row.lsoa21cd := rfl

/-- After the pass, `Period_Total_Crimes` of a row is exactly the number of
filtered incidents carrying the row's area code (the merged NaN of an
unmatched row is filled to 0, which is also its count). -/
theorem enrichRow_ptc (f : List Incident) (row : MasterRow) :
    (enrichRow f row).periodTotalCrimes =
      some (.fin (countFor f row.lsoa21cd : ℚ)) := by
  by_cases h : f.any (fun r => r.lsoa21cd == row.lsoa21cd)
  · simp [enrichRow, mergedPeriodTotal, h, PFloat.fillna]
  · have h0 : countFor f row.lsoa21cd = 0 := by
      simp only [countFor, List.length_eq_zero, List.filter_eq_nil_iff]
      simpa using h
    simp [enrichRow, mergedPeriodTotal, h, PFloat.fillna, h0]

/-- `Total_Crimes` is the alias of `Period_Total_Crimes` on every row. -/
theorem enrichRow_tc (f : List Incident) (row : MasterRow) :
    (enrichRow f row).totalCrimes = (enrichRow f row).periodTotalCrimes := rfl

/-- C3: rerunning the aggregation on an already-enriched table with a new
filtered set gives exactly the result of running it on the pristine table:
the stale derived columns are dropped first, so nothing of the earlier
pass survives. -/
theorem no_residue (m : List MasterRow) (A B : List Incident) :
    recompute_area_stats (recompute_area_stats m A) B =
      recompute_area_stats m B := by
  simp only [recompute_area_stats, List.map_map]
  apply List.map_congr_left
  intro row _
  cases row
  rfl

/-- C4: with unique area codes, the aggregation output carries the same
area codes in the same order (so no row is dropped or duplicated), and any
area no filtered incident matches still appears with
`Period_Total_Crimes = 0`. -/
theorem row_preservation (m : List MasterRow) (f : List Incident)
    (h : (m.map (fun row => row.lsoa21cd)).Nodup) :
    ((recompute_area_stats m f).map (fun row => row.lsoa21cd) =
      m.map (fun row => row.lsoa21cd)) ∧
    (recompute_area_stats m f).length = m.length ∧
    ∀ row ∈ recompute_area_stats m f,
      (∀ i ∈ f, i.lsoa21cd ≠ row.lsoa21cd) →
        row.periodTotalCrimes = some (.fin 0) := by
  refine ⟨?_, ?_, ?_⟩
  · simp [recompute_area_stats, List.map_map, enrichRow_lsoa]
  · simp [recompute_area_stats]
  · intro row hrow hnone
    rcases List.mem_map.mp hrow with ⟨r, hr, rfl⟩
    have h0 : countFor f r.lsoa21cd = 0 := by
      simp only [countFor, List.length_eq_zero, List.filter_eq_nil_iff]
      intro i hi
      simpa using hnone i hi
    simp [enrichRow_ptc, enrichRow_lsoa, h0]

/-- Closed instance of `row_preservation` at a concrete two-row master
table with distinct codes and one matching incident. -/
theorem row_preservation_witness :
    (recompute_area_stats [mPop2000, mZeroPop] [i2000]).map
      (fun row => row.lsoa21cd) = ["E01014485", "E01014999"] := by
  have h := row_preservation [mPop2000, mZeroPop] [i2000] (by decide)
  rw [h.1]
  decide

/-- Pointwise sums of natural-valued columns add up. -/
theorem sum_map_add_nat (m : List MasterRow) (f g : MasterRow → ℕ) :
    (m.map (fun row => f row + g row)).sum = (m.map f).sum + (m.map g).sum := by
  induction m with
  | nil => simp
  | cons r rest ih =>
    simp only [List.map_cons, List.sum_cons, ih]
    omega

/-- With unique area codes, the indicator column of one code sums to 1 when
the code occurs in the master table and to 0 otherwise. -/
theorem sum_indicator (m : List MasterRow) (c : String)
    (h : (m.map (fun row => row.lsoa21cd)).Nodup) :
    (m.map (fun row => if c = row.lsoa21cd then 1 else 0)).sum =
      (if m.any (fun row => row.lsoa21cd == c) then 1 else 0 : ℕ) := by
  induction m with
  | nil => simp
  | cons r rest ih =>
    simp only [List.map_cons, List.nodup_cons] at h
    obtain ⟨hr, hrest⟩ := h
    simp only [List.map_cons, List.sum_cons, List.any_cons]
    by_cases hc : c = r.lsoa21cd
    · subst hc
      have hz : ∀ row ∈ rest, ¬ (r.lsoa21cd = row.lsoa21cd) := by
        intro row hrow heq
        exact hr (List.mem_map.mpr ⟨row, hrow, heq.symm⟩)
      have hsum : (rest.map (fun row => if r.lsoa21cd = row.lsoa21cd then 1 else 0)).sum = 0 := by
        apply List.sum_eq_zero
        intro x hx
        rcases List.mem_map.mp hx with ⟨row, hrow, rfl⟩
        simp [hz row hrow]
      simp [hsum]
    · have hbeq : (r.lsoa21cd == c) = false := by
        simp only [beq_eq_false_iff_ne, ne_eq]
        exact fun heq => hc heq.symm
      simp [hc, hbeq, ih hrest]

/-- With unique area codes, summing the per-row incident counts over the
master table counts each matched incident exactly once. -/
theorem sum_countFor (m : List MasterRow) (f : List Incident)
    (h : (m.map (fun row => row.lsoa21cd)).Nodup) :
    (m.map (fun row => countFor f row.lsoa21cd)).sum = matchedCount m f := by
  induction f with
  | nil => simp [countFor, matchedCount]
  | cons i rest ih =>
    have hcount : ∀ code : String, countFor (i :: rest) code =
        (if i.lsoa21cd = code then 1 else 0) + countFor rest code := by
      intro code
      by_cases hic : i.lsoa21cd = code <;>
        simp [countFor, List.filter_cons, hic, Nat.add_comm]
    have hmatched : matchedCount m (i :: rest) =
        (if m.any (fun row => row.lsoa21cd == i.lsoa21cd) then 1 else 0)
          + matchedCount m rest := by
      by_cases him : m.any (fun row => row.lsoa21cd == i.lsoa21cd) <;>
        simp [matchedCount, List.filter_cons, him, Nat.add_comm]
    simp only [hcount]
    rw [sum_map_add_nat, sum_indicator m i.lsoa21cd h, ih, hmatched]

/-- C5 (amended: the master table's area codes are unique, the
precondition the spec itself demands): each row's `Period_Total_Crimes` is
exactly the number of filtered incidents matching its area code —
incidents whose code occurs nowhere in the master table contribute to no
row — and the column total equals the number of filtered incidents whose
code occurs in the master table. -/
theorem period_counts_exact (m : List MasterRow) (f : List Incident)
    (h : (m.map (fun row => row.lsoa21cd)).Nodup) :
    (∀ row ∈ recompute_area_stats m f,
        row.periodTotalCrimes = some (.fin (countFor f row.lsoa21cd : ℚ))) ∧
    sumPeriodTotals (recompute_area_stats m f) = (matchedCount m f : ℚ) := by
  constructor
  · intro row hrow
    rcases List.mem_map.mp hrow with ⟨r, hr, rfl⟩
    simp [enrichRow_ptc, enrichRow_lsoa]
  · have hpt : ∀ row : MasterRow,
        periodTotalOf (enrichRow f row) = (countFor f row.lsoa21cd : ℚ) := by
      intro row
      simp [periodTotalOf, enrichRow_ptc]
    calc sumPeriodTotals (recompute_area_stats m f)
        = (m.map (fun row => (countFor f row.lsoa21cd : ℚ))).sum := by
          simp only [sumPeriodTotals, recompute_area_stats, List.map_map]
          congr 1
          apply List.map_congr_left
          intro row _
          simpa [Function.comp] using hpt row
      _ = ((m.map (fun row => countFor f row.lsoa21cd)).map
            (fun n : ℕ => (n : ℚ))).sum := by
          rw [List.map_map]
          rfl
      _ = ((m.map (fun row => countFor f row.lsoa21cd)).sum : ℚ) :=
          (Nat.cast_list_sum _).symm
      _ = (matchedCount m f : ℚ) := by rw [sum_countFor m f h]

/-- Closed instance of `period_counts_exact` at a concrete master table
with unique codes. -/
theorem period_counts_exact_witness :
    sumPeriodTotals (recompute_area_stats [mPop2000, mZeroPop] [i2000]) =
      (matchedCount [mPop2000, mZeroPop] [i2000] : ℚ) :=
  (period_counts_exact [mPop2000, mZeroPop] [i2000] (by decide)).2

/-- A second master row carrying the same area code as `mPop2000`. -/
def mDupPop : MasterRow :=
  { lsoa21cd := "E01014485", lsoa21ln := "Central Alpha North",
    lsoa21nm := "Bristol 001B", imdScore := 30, income := 3/10,
    employment := 1/5, educationScore := 15, pop2022Total := .fin 1500 }

/-- C5 as literally stated fails without the uniqueness precondition: when
the master table repeats an area code, the left merge assigns the full
count to every duplicate row, so one matched incident is summed twice. -/
theorem period_sum_counterexample :
    ¬ (sumPeriodTotals (recompute_area_stats [mPop2000, mDupPop] [i2000]) =
        (matchedCount [mPop2000, mDupPop] [i2000] : ℚ)) := by
  norm_num [sumPeriodTotals, periodTotalOf, recompute_area_stats, enrichRow,
    mergedPeriodTotal, countFor, matchedCount, PFloat.div, PFloat.mulPos,
    PFloat.fillna, mPop2000, mDupPop, i2000]

/-- `Crime_Rate` of a row with no matching filtered incident evaluates to
0 whatever its population cell holds. -/
theorem enrichRow_rate_empty (row : MasterRow) :
    (enrichRow [] row).crimeRate = some (.fin 0) := by
  cases hp : row.pop2022Total with
  | nan => simp [enrichRow, mergedPeriodTotal, PFloat.fillna, PFloat.div,
      PFloat.mulPos, hp]
  | inf => simp [enrichRow, mergedPeriodTotal, PFloat.fillna, PFloat.div,
      PFloat.mulPos, hp]
  | ninf => simp [enrichRow, mergedPeriodTotal, PFloat.fillna, PFloat.div,
      PFloat.mulPos, hp]
  | fin b =>
    by_cases hb : b = 0 <;>
      simp [enrichRow, mergedPeriodTotal, PFloat.fillna, PFloat.div,
        PFloat.mulPos, hp, hb, zero_div, zero_mul]

/-- C7: with zero filtered incidents the aggregation still runs and every
area gets `Period_Total_Crimes = 0`, `Total_Crimes = 0` and
`Crime_Rate = 0`; and with an empty incident set every downstream stage
degrades to the empty result instead of raising. -/
theorem empty_filter_degrades_gracefully (m : List MasterRow) (s e : Int)
    (sel : List String) :
    ((recompute_area_stats m []).map (fun row => row.periodTotalCrimes) =
      m.map (fun _ => some (PFloat.fin 0))) ∧
    ((recompute_area_stats m []).map (fun row => row.totalCrimes) =
      m.map (fun _ => some (PFloat.fin 0))) ∧
    ((recompute_area_stats m []).map (fun row => row.crimeRate) =
      m.map (fun _ => some (PFloat.fin 0))) ∧
    filtered_incidents [] s e sel = [] ∧
    base_filtered_incidents [] s e = [] ∧
    heat_data [] = [] ∧
    all_crimes [] = [] ∧
    valid_defaults [] = [] ∧
    csvLineList [] = [csvHeader] := by
  refine ⟨?_, ?_, ?_, ?_, ?_, ?_, ?_, ?_, ?_⟩
  · simp only [recompute_area_stats, List.map_map]
    apply List.map_congr_left
    intro r _
    simp [Function.comp, enrichRow_ptc, countFor]
  · simp only [recompute_area_stats, List.map_map]
    apply List.map_congr_left
    intro r _
    simp [Function.comp, enrichRow_tc, enrichRow_ptc, countFor]
  · simp only [recompute_area_stats, List.map_map]
    apply List.map_congr_left
    intro r _
    simp [Function.comp, enrichRow_rate_empty]
  · simp [filtered_incidents, base_filtered_incidents]
  · simp [base_filtered_incidents]
  · simp [heat_data]
  · simp [all_crimes, uniqueFirst]
  · simp [valid_defaults, all_crimes, uniqueFirst]
  · rfl

/-- The descending-with-NaN-last comparison is total. -/
theorem descBefore_total (a b : PFloat) :
    descBefore a b || descBefore b a := by
  cases a <;> cases b <;> simp [descBefore] <;> exact le_total _ _

/-- The descending-with-NaN-last comparison is transitive. -/
theorem descBefore_trans (a b c : PFloat) :
    descBefore a b = true → descBefore b c = true → descBefore a c = true := by
  cases a <;> cases b <;> cases c <;> simp [descBefore] <;>
    exact fun h1 h2 => le_trans h2 h1

/-- Two values each allowed no later than the other in the descending
NaN-last order are equal. -/
theorem descBefore_antisymm (a b : PFloat) :
    descBefore a b = true → descBefore b a = true → a = b := by
  cases a <;> cases b <;> simp [descBefore] <;>
    exact fun h1 h2 => le_antisymm h2 h1

/-- A pairwise-ordered list is determined by its multiset of elements
whenever the ordering relation is antisymmetric on the elements present. -/
theorem sorted_perm_eq {α : Type} {R : α → α → Prop} :
    ∀ {l1 l2 : List α}, l1.Perm l2 → l1.Pairwise R → l2.Pairwise R →
      (∀ a ∈ l1, ∀ b ∈ l1, R a b → R b a → a = b) → l1 = l2 := by
  intro l1
  induction l1 with
  | nil =>
    intro l2 hp _ _ _
    exact hp.nil_eq
  | cons a l1 ih =>
    intro l2 hp h1 h2 hanti
    cases l2 with
    | nil => exact absurd hp.eq_nil (List.cons_ne_nil a l1)
    | cons b l2 =>
      obtain ⟨ha1, h1'⟩ := List.pairwise_cons.mp h1
      obtain ⟨hb2, h2'⟩ := List.pairwise_cons.mp h2
      have hab : a = b := by
        by_cases hne : a = b
        · exact hne
        · have ha2 : a ∈ l2 := by
            have := hp.mem_iff.mp (List.mem_cons_self a l1)
            rcases List.mem_cons.mp this with h | h
            · exact absurd h hne
            · exact h
          have hb1 : b ∈ l1 := by
            have := hp.mem_iff.mpr (List.mem_cons_self b l2)
            rcases List.mem_cons.mp this with h | h
            · exact absurd h.symm hne
            · exact h
          exact absurd
            (hanti a (List.mem_cons_self a l1) b (List.mem_cons_of_mem a hb1)
              (ha1 b hb1) (hb2 a ha2)) hne
      subst hab
      have hrec := ih hp.cons_inv h1' h2'
        (fun x hx y hy => hanti x (List.mem_cons_of_mem a hx) y
          (List.mem_cons_of_mem a hy))
      rw [hrec]

/-- Every table admits at least one admissible descending ordering, so the
sort contract is never vacuous. -/
theorem sortedDescBy_nonempty (key : MasterRow → PFloat) (t : List MasterRow) :
    ∃ out, SortedDescBy key t out :=
  ⟨t.mergeSort (fun a b => descBefore (key a) (key b)),
    List.mergeSort_perm t _,
    List.sorted_mergeSort
      (fun a b c => descBefore_trans (key a) (key b) (key c))
      (fun a b => descBefore_total (key a) (key b)) t⟩

/-- C6 as stated is false of the code: `sort_values` is called with the
default unstable `kind='quicksort'`, so the program guarantees only a
descending-ordered permutation and no tie rule at all.  At the concrete
table `tTie`, whose scores tie exactly at the top-ten cutoff, the code's
sort contract admits two orderings whose first ten rows carry different
name sets — so neither "ties broken by input row order (stable sort)" nor
the determinism of the reported top-ten lists follows from the code. -/
theorem overlap_tie_counterexample :
    SortedDescBy (fun r => .fin r.imdScore) tTie tTie ∧
    SortedDescBy (fun r => .fin r.imdScore) tTie tSwap ∧
    top10Names tTie ≠ top10Names tSwap := by
  refine ⟨⟨List.Perm.refl _, ?_⟩, ⟨?_, ?_⟩, ?_⟩ <;> decide

/-- C6 (amended: the sort contract is a descending NaN-last permutation
with implementation-defined tie order, pandas' default quicksort being
unstable): for any admissible orderings of the table by `IMDScore` and by
`Crime_Rate`, the overlap analysis reports exactly the set intersection
of the local names of the two leading-ten lists — so disjoint lists give
the empty set and identical lists the full set with no special-casing —
each leading list has `min 10 n` rows, an admissible ordering always
exists, and when the key column holds pairwise-distinct values the
admissible ordering, and hence the reported set, is unique, recovering
determinism exactly when no ties occur. -/
theorem overlap_analysis_relational (t outD outC : List MasterRow)
    (n : String)
    (hD : SortedDescBy (fun r => .fin r.imdScore) t outD)
    (hC : SortedDescBy crimeRateVal t outC) :
    (n ∈ common_areas_of outD outC ↔
      ((∃ r ∈ outD.take 10, r.lsoa21ln = n) ∧
       (∃ r ∈ outC.take 10, r.lsoa21ln = n))) ∧
    (outD.take 10).length = min 10 t.length ∧
    (outC.take 10).length = min 10 t.length ∧
    (∃ out, SortedDescBy (fun r => .fin r.imdScore) t out) ∧
    (∃ out, SortedDescBy crimeRateVal t out) ∧
    (t.Pairwise (fun a b => a.imdScore ≠ b.imdScore) →
      ∀ outD2, SortedDescBy (fun r => .fin r.imdScore) t outD2 →
        outD = outD2) ∧
    (t.Pairwise (fun a b => crimeRateVal a ≠ crimeRateVal b) →
      ∀ outC2, SortedDescBy crimeRateVal t outC2 → outC = outC2) := by
  refine ⟨?_, ?_, ?_, sortedDescBy_nonempty _ t, sortedDescBy_nonempty _ t,
    ?_, ?_⟩
  · simp only [common_areas_of, top10Names, Finset.mem_inter,
      List.mem_toFinset, List.mem_map]
  · rw [List.length_take, hD.1.length_eq]
  · rw [List.length_take, hC.1.length_eq]
  · intro hdist outD2 hD2
    apply sorted_perm_eq (hD.1.trans hD2.1.symm) hD.2 hD2.2
    intro a ha b hb hab hba
    by_cases heq : a = b
    · exact heq
    · have hk : PFloat.fin a.imdScore = PFloat.fin b.imdScore :=
        descBefore_antisymm _ _ hab hba
      have hks : a.imdScore = b.imdScore := by simpa using hk
      have hdistD : outD.Pairwise (fun a b => a.imdScore ≠ b.imdScore) :=
        (hD.1.pairwise_iff (fun h => Ne.symm h)).mpr hdist
      exact absurd hks
        (List.Pairwise.forall (fun _ _ h => Ne.symm h) hdistD ha hb heq)
  · intro hdist outC2 hC2
    apply sorted_perm_eq (hC.1.trans hC2.1.symm) hC.2 hC2.2
    intro a ha b hb hab hba
    by_cases heq : a = b
    · exact heq
    · have hk : crimeRateVal a = crimeRateVal b :=
        descBefore_antisymm _ _ hab hba
      have hdistC : outC.Pairwise (fun a b => crimeRateVal a ≠ crimeRateVal b) :=
        (hC.1.pairwise_iff (fun h => Ne.symm h)).mpr hdist
      exact absurd hk
        (List.Pairwise.forall (fun _ _ h => Ne.symm h) hdistC ha hb heq)

/-- Closed instance of the amended overlap theorem, with the sort-contract
hypotheses discharged at a concrete table and outcome. -/
theorem overlap_relational_witness :
    (tTie.take 10).length = min 10 tTie.length ∧
    "A01" ∈ common_areas_of tTie tTie := by
  have hD : SortedDescBy (fun r => .fin r.imdScore) tTie tTie :=
    ⟨List.Perm.refl _, by decide⟩
  have hC : SortedDescBy crimeRateVal tTie tTie :=
    ⟨List.Perm.refl _, by decide⟩
  have h := overlap_analysis_relational tTie tTie tTie "A01" hD hC
  refine ⟨h.2.1, h.1.mpr ⟨⟨tieRow "A01" 110, by decide, by decide⟩,
    ⟨tieRow "A01" 110, by decide, by decide⟩⟩⟩

/-- C10: a record with a null coordinate is an ordinary record for the
public pipeline — the filter keeps it exactly under the date and type
predicates, it contributes one unit to its area's count, and its line
appears in the CSV export — while the heatmap point list drops it. -/
theorem null_coordinate_handling (incidents : List Incident) (s e : Int)
    (sel : List String) (r : Incident) (f : List Incident) (code : String)
    (h : r.latitude = none ∨ r.longitude = none) :
    (r ∈ filtered_incidents incidents s e sel ↔
      (r ∈ incidents ∧ s ≤ r.month ∧ r.month ≤ e ∧ r.crimeType ∈ sel)) ∧
    countFor (r :: f) code =
      (if r.lsoa21cd = code then 1 else 0) + countFor f code ∧
    (r ∈ filtered_incidents incidents s e sel →
      incidentLine r ∈ csvLineList (filtered_incidents incidents s e sel)) ∧
    heat_data (r :: f) = heat_data f := by
  refine ⟨?_, ?_, ?_, ?_⟩
  · simp only [filtered_incidents, base_filtered_incidents, List.mem_filter,
      Bool.and_eq_true, decide_eq_true_eq, List.contains, List.elem_eq_mem]
    tauto
  · by_cases hc : r.lsoa21cd = code <;>
      simp [countFor, List.filter_cons, hc, Nat.add_comm]
  · intro hmem
    exact List.mem_cons_of_mem _ (List.mem_map.mpr ⟨r, hmem, rfl⟩)
  · rcases h with h | h
    · cases hlo : r.longitude <;> simp [heat_data, List.filterMap_cons, h, hlo]
    · cases hla : r.latitude <;> simp [heat_data, List.filterMap_cons, h, hla]

/-- Closed instance of `null_coordinate_handling` at a record with both
coordinates null: it is kept by the filter, counted for its area, present
in the export lines, and absent from the heatmap points. -/
theorem null_coordinate_witness :
    iZero ∈ filtered_incidents [iZero] 19000 19000 ["Burglary"] ∧
    countFor [iZero] "E01014999" = 1 ∧
    incidentLine iZero ∈
      csvLineList (filtered_incidents [iZero] 19000 19000 ["Burglary"]) ∧
    heat_data [iZero] = [] := by
  have h := null_coordinate_handling [iZero] 19000 19000 ["Burglary"] iZero []
    "E01014999" (Or.inl rfl)
  have hmem : iZero ∈ filtered_incidents [iZero] 19000 19000 ["Burglary"] := by
    apply h.1.mpr
    refine ⟨List.mem_singleton_self _, ?_, ?_, ?_⟩ <;> decide
  refine ⟨hmem, ?_, h.2.2.1 hmem, h.2.2.2.trans rfl⟩
  rw [h.2.1]
  decide

end Bristol
